import Mathlib

/-!
Verification of `covid19_inference/dummy_data.py` (class `DummyData`).

Shallow embedding conventions:
* Calendar dates are modelled as integers counting days, so `(d2 - d1).days`
  becomes integer subtraction and `pd.date_range(b, e)` becomes the inclusive
  integer range `[b, b+1, ..., e]`.
* Float arithmetic is modelled exactly over an arbitrary linear ordered field
  `K`; theorems instantiate `K` with `ℝ` (and witnesses evaluate over `ℚ` or
  `ℝ` as convenient).  The transcendental functions `np.exp` and `np.sin` are
  passed as explicit function arguments (`exp`, `sin`) so that the embedded
  definitions remain ordinary computable functions; claims about the real
  pipeline instantiate them with `Real.exp`, `Real.sin` and `Real.pi`.
* Python code that raises is modelled with `Option`/`Except`: indexing an
  empty list raises `IndexError`, and `np.randint` (which does not exist as a
  numpy attribute) raises `AttributeError`.
* The negative-binomial sampler `nbinom.rvs` is an opaque random draw; it is
  modelled by an abstract function argument `draw : K → K → K` taking the two
  parameters that the code passes to `nbinom.rvs`.
-/

namespace DummyData

variable {K : Type} [LinearOrderedField K]

/-- `pd.date_range(data_begin, data_end)`: all days from `data_begin` to
`data_end` inclusive (empty when `data_end < data_begin`). -/
def dateRange (data_begin data_end : ℤ) : List ℤ :=
  (List.range (data_end - data_begin + 1).toNat).map (fun i : ℕ => data_begin + (i : ℤ))

/-- The `data_len` property: `(self.data_end - self.data_begin).days`. -/
def data_len (data_begin data_end : ℤ) : ℤ := data_end - data_begin

/-- Inner function `logistics_from_cps` of `_change_points_to_lambda_t`:
`L = cp2_y - cp1_y`, `C = cp1_y`, `x_0 = abs(cp1_x - cp2_x)/2 + cp1_x`, value
`L / (1 + exp(-0.8*(x - x_0))) + C`. -/
def logistics_from_cps (exp : K → K) (x cp1_x cp1_y cp2_x cp2_y : K) : K :=
  let L := cp2_y - cp1_y
  let C := cp1_y
  let x_0 := |cp1_x - cp2_x| / 2 + cp1_x
  L / (1 + exp (-(4 / 5) * (x - x_0))) + C

/-- Inner function `helper_lambda_between` of `_change_points_to_lambda_t`:
`delta_days = abs((cp1[0] - cp2[0]).days)` and one logistic value for each
`x in range(delta_days)`. A change point is a pair (date, lambda value). -/
def helper_lambda_between (exp : K → K) (cp1 cp2 : ℤ × K) : List K :=
  let delta_days := (cp1.1 - cp2.1).natAbs
  (List.range delta_days).map
    (fun x : ℕ => logistics_from_cps exp (x : K) 0 cp1.2 (delta_days : K) cp2.2)

/-- `_change_points_to_lambda_t`: sort the change points by date (Python's
stable `list.sort`), interpolate from `(data_begin, lambda_initial)` to the
first change point, between consecutive change points, and hold the last
change point's value for `(data_end - last_date).days + 1` further days
(an empty tail when that count is negative, matching Python's `[v] * n`).
When the change-point list is empty, `change_points[0]` raises `IndexError`,
modelled as `none`. -/
def change_points_to_lambda_t (exp : K → K) (data_begin data_end : ℤ)
    (lambda_initial : K) (change_points : List (ℤ × K)) : Option (List K) :=
  match List.insertionSort (fun a b => a.1 ≤ b.1) change_points with
  | [] => none
  | c0 :: rest =>
      let last := (c0 :: rest).getLast (List.cons_ne_nil c0 rest)
      some (helper_lambda_between exp (data_begin, lambda_initial) c0
        ++ ((c0 :: rest).zip rest).flatMap (fun p => helper_lambda_between exp p.1 p.2)
        ++ List.replicate (data_end - last.1 + 1).toNat last.2)

/-- Componentwise addition of SIR state vectors `(S, I, R)`. -/
def vadd (a b : K × K × K) : K × K × K :=
  (a.1 + b.1, a.2.1 + b.2.1, a.2.2 + b.2.2)

/-- Scalar multiplication of an SIR state vector. -/
def smul (c : K) (a : K × K × K) : K × K × K :=
  (c * a.1, c * a.2.1, c * a.2.2)

/-- Inner function `f` of `_generate_SIR` (the parameter `t` is unused there
too): `lambda_t * [-1, 1, 0] * y0*y1/N + [0, -mu*y1, mu*y1]`. -/
def f (mu N : K) (_t : K) (y : K × K × K) (lambda_t : K) : K × K × K :=
  (lambda_t * (-1) * (y.1 * y.2.1 / N) + 0,
   lambda_t * 1 * (y.1 * y.2.1 / N) + -(mu * y.2.1),
   lambda_t * 0 * (y.1 * y.2.1 / N) + mu * y.2.1)

/-- Inner function `RK4` of `_generate_SIR`: one classical Runge-Kutta step
`y_n + dt/6 * (k_1 + 2*k_2 + 2*k_3 + k_4)`. -/
def RK4 (mu N : K) (dt t_n : K) (y_n : K × K × K) (lambda_t : K) : K × K × K :=
  let k_1 := f mu N t_n y_n lambda_t
  let k_2 := f mu N (t_n + dt / 2) (vadd y_n (smul (dt / 2) k_1)) lambda_t
  let k_3 := f mu N (t_n + dt / 2) (vadd y_n (smul (dt / 2) k_2)) lambda_t
  let k_4 := f mu N (t_n + dt) (vadd y_n (smul dt k_3)) lambda_t
  vadd y_n (smul (dt / 6) (vadd k_1 (vadd (smul 2 k_2) (vadd (smul 2 k_3) k_4))))

/-- `_generate_SIR`: `N = S_initial + I_initial + R_initial`, `dt = 1`, and
`time_range` RK4 steps from `y_0 = (S_initial, I_initial, R_initial)`, step
`i` using `lambda_t[i]`.  The trajectory (the returned `y_n` list) starts
with the initial state.  `f` ignores its time argument, so the `t_n` value
fed to `RK4` is irrelevant and is passed as `0` here. -/
def generate_SIR (mu : K) (S_initial I_initial R_initial : K)
    (lambda_t : List K) (time_range : ℕ) : List (K × K × K) :=
  let N := S_initial + I_initial + R_initial
  (lambda_t.take time_range).scanl
    (fun y lam => RK4 mu N 1 0 y lam) (S_initial, I_initial, R_initial)

/-- The `t_n` list built by `_generate_SIR`: `[0, 1, ..., time_range]` with
`time_range = data_len`. -/
def time_steps (data_begin data_end : ℤ) : List K :=
  (List.range ((data_len data_begin data_end).toNat + 1)).map (fun i : ℕ => (i : K))

/-- `_calc_new_cases_raw`: element `0` is `0`; element `i > 0` is
`I[i] - I[i-1]` if that difference is positive, else `0`. -/
def calc_new_cases_raw (I : List K) : List K :=
  (List.range I.length).map (fun i =>
    if i = 0 then 0
    else
      let value := I.getD i 0 - I.getD (i - 1) 0
      if 0 < value then value else 0)

/-- `_week_modulation`: `new_cases[i] = new_cases_raw[i] * (1 - f(t_n[i]))`
with `f(t) = weekend_factor * (1 - abs(sin(pi/7*t - 1/2*offset_sunday)))`. -/
def week_modulation (sin : K → K) (pi : K) (weekend_factor offset_sunday : K)
    (t_n new_cases_raw : List K) : List K :=
  let f := fun t => weekend_factor * (1 - |sin (pi / 7 * t - 1 / 2 * offset_sunday)|)
  (List.range t_n.length).map
    (fun i => new_cases_raw.getD i 0 * (1 - f (t_n.getD i 0)))

/-- `_delay_cases`: pandas `shift(periods=case_delay, fill_value=0)` — the
value at position `i` moves to position `i + case_delay`, the first
`case_delay` positions are filled with `0`, the length is unchanged. -/
def delay_cases (case_delay : ℕ) (new_cases : List K) : List K :=
  List.replicate (min case_delay new_cases.length) (0 : K)
    ++ new_cases.take (new_cases.length - case_delay)

/-- Inner function `convert` of `_random_noise`: `r = 1/alpha`,
`p = mu/(mu + r)`, returning `(r, 1 - p)`. -/
def convert (mu alpha : K) : K × K :=
  let r := 1 / alpha
  let p := mu / (mu + r)
  (r, 1 - p)

/-- `_random_noise`: entries equal to `0` are skipped; every other entry is
replaced by `nbinom.rvs(r, p)` where `(r, p) = convert(entry, noise_factor)`.
The sampler is the abstract `draw`. -/
def random_noise (draw : K → K → K) (noise_factor : K) (xs : List K) : List K :=
  xs.map (fun x =>
    if x = 0 then x
    else
      let rp := convert x noise_factor
      draw rp.1 rp.2)

/-- The fields of `self.initials` (here always fully supplied, corresponding
to passing every keyword override to `_update_initial`; the random default
branches are then not taken). -/
structure Initials (K : Type) where
  S_initial : K
  I_initial : K
  R_initial : K
  lambda_initial : K
  change_points : List (ℤ × K)
  noise_factor : K
  offset_sunday : K
  weekend_factor : K
  case_delay : ℕ

/-- `generate`: the six-stage pipeline.  Stage 5 builds the dataframe indexed
by `pd.date_range(data_begin, data_end)`, stores the modulated `new_cases`,
applies `_delay_cases` to the frame (which then holds only the `new_cases`
column), and only afterwards stores `lambda_t` — so the `lambda_t` column is
not shifted.  Stage 6 applies `_random_noise` to the delayed `new_cases`
column when `add_noise` is set.  The result models the two dataframe columns
as the pair `(new_cases, lambda_t)`.  Returns `none` when
`_change_points_to_lambda_t` raises (empty change-point list). -/
def generate (exp sin : K → K) (pi : K) (draw : K → K → K) (mu : K)
    (data_begin data_end : ℤ) (iv : Initials K) (add_noise : Bool) :
    Option (List K × List K) :=
  (change_points_to_lambda_t exp data_begin data_end iv.lambda_initial
      iv.change_points).map (fun lambda_t =>
    let t_n : List K := time_steps data_begin data_end
    let y_n := generate_SIR mu iv.S_initial iv.I_initial iv.R_initial lambda_t
      (data_len data_begin data_end).toNat
    let new_cases_raw := calc_new_cases_raw (y_n.map (fun y => y.2.1))
    let new_cases := week_modulation sin pi iv.weekend_factor iv.offset_sunday
      t_n new_cases_raw
    let delayed := delay_cases iv.case_delay new_cases
    let final := if add_noise then random_noise draw iv.noise_factor delayed else delayed
    (final, lambda_t))

/-- The attributes set by `__init__`. -/
structure State (K : Type) where
  seed : ℤ
  add_noise : Bool
  data_begin : ℤ
  data_end : ℤ
  mu : K
  initials : Initials K

/-- `__init__` with every initial value supplied as a keyword override (so
`_update_initial` takes no random branch).  The dates are stored without any
validation.  When `seed` is `None` the source evaluates
`np.randint(1000000, 9999999)`, but numpy has no attribute `randint` (it is
`np.random.randint`), so construction fails with `AttributeError`, modelled
as `Except.error`.  The `auto_generate` branch is not modelled. -/
def init (data_begin data_end : ℤ) (mu : K) (noise : Bool) (seed : Option ℤ)
    (initial_values : Initials K) : Except String (State K) :=
  match seed with
  | some s =>
      Except.ok { seed := s, add_noise := noise, data_begin := data_begin,
                  data_end := data_end, mu := mu, initials := initial_values }
  | none => Except.error "AttributeError: module numpy has no attribute randint"

/-- A concrete set of initial values over `ℚ`, used to instantiate several
claims at concrete inputs. -/
def ivals0 : Initials ℚ :=
  { S_initial := 100, I_initial := 1, R_initial := 0, lambda_initial := 1 / 2,
    change_points := [(0, 1 / 2)], noise_factor := 1 / 100000,
    offset_sunday := 0, weekend_factor := 1 / 4, case_delay := 6 }

/-! ### Helper lemmas -/

theorem getD_map_range (g : ℕ → K) (n i : ℕ) (h : i < n) :
    ((List.range n).map g).getD i 0 = g i := by
  rw [List.getD_eq_getElem _ _ (by simpa using h)]
  simp

theorem helper_lambda_between_length (exp : K → K) (cp1 cp2 : ℤ × K) :
    (helper_lambda_between exp cp1 cp2).length = (cp1.1 - cp2.1).natAbs := by
  simp only [helper_lambda_between, List.length_map, List.length_range]

theorem middle_segments_length (exp : K → K) :
    ∀ (l : List (ℤ × K)) (hl : l ≠ []),
      List.Sorted (fun a b => a.1 ≤ b.1) l →
      (((l.zip l.tail).flatMap (fun p => helper_lambda_between exp p.1 p.2)).length : ℤ)
        = (l.getLast hl).1 - (l.head hl).1 := by
  intro l
  induction l with
  | nil => intro hl; exact absurd rfl hl
  | cons a l ih =>
    intro hl hs
    cases l with
    | nil => simp
    | cons b t =>
      have hab : a.1 ≤ b.1 := List.rel_of_sorted_cons hs b (List.mem_cons_self b t)
      have hrec := ih (List.cons_ne_nil b t) hs.of_cons
      rw [List.tail_cons] at hrec ⊢
      rw [List.zip_cons_cons, List.flatMap_cons, List.length_append,
        List.getLast_cons (List.cons_ne_nil b t), List.head_cons,
        helper_lambda_between_length]
      have hcast : (((a.1 - b.1).natAbs : ℕ) : ℤ) = b.1 - a.1 := by omega
      rw [Nat.cast_add, hcast, hrec]
      simp only [List.head_cons]
      ring

theorem delay_cases_length (d : ℕ) (xs : List K) :
    (delay_cases d xs).length = xs.length := by
  simp only [delay_cases, List.length_append, List.length_replicate, List.length_take]
  omega

theorem week_modulation_length (sin : K → K) (pi f_w off : K) (t_n raw : List K) :
    (week_modulation sin pi f_w off t_n raw).length = t_n.length := by
  simp [week_modulation]

theorem random_noise_length (draw : K → K → K) (nf : K) (xs : List K) :
    (random_noise draw nf xs).length = xs.length := by
  simp [random_noise]

theorem time_steps_length (b e : ℤ) :
    (time_steps b e : List K).length = (data_len b e).toNat + 1 := by
  simp only [time_steps, List.length_map, List.length_range]

theorem dateRange_length (b e : ℤ) :
    (dateRange b e).length = (e - b + 1).toNat := by
  simp only [dateRange, List.length_map, List.length_range]

theorem delay_cases_getD_zero (d : ℕ) (xs : List K) (i : ℕ)
    (hid : i < d) (hi : i < xs.length) :
    (delay_cases d xs).getD i 0 = 0 := by
  simp only [delay_cases]
  have hrep : i < (List.replicate (min d xs.length) (0 : K)).length := by
    rw [List.length_replicate]
    omega
  have hlen : i < (List.replicate (min d xs.length) (0 : K)
      ++ xs.take (xs.length - d)).length := by
    rw [List.length_append]
    omega
  rw [List.getD_eq_getElem _ _ hlen, List.getElem_append_left hrep]
  exact List.getElem_replicate _ _

theorem delay_cases_getD_shift (d : ℕ) (xs : List K) (i : ℕ)
    (hd : d ≤ i) (hi : i < xs.length) :
    (delay_cases d xs).getD i 0 = xs.getD (i - d) 0 := by
  simp only [delay_cases]
  have hmin : min d xs.length = d := by omega
  have hrep : (List.replicate (min d xs.length) (0 : K)).length ≤ i := by
    rw [List.length_replicate]
    omega
  have hlen : i < (List.replicate (min d xs.length) (0 : K)
      ++ xs.take (xs.length - d)).length := by
    rw [List.length_append, List.length_replicate, List.length_take]
    omega
  rw [List.getD_eq_getElem _ _ hlen, List.getElem_append_right hrep,
    List.getElem_take, List.getD_eq_getElem _ _ (by omega)]
  congr 1
  rw [List.length_replicate, hmin]

theorem RK4_sum (mu N dt t : K) (y : K × K × K) (lam : K) :
    (RK4 mu N dt t y lam).1 + (RK4 mu N dt t y lam).2.1 + (RK4 mu N dt t y lam).2.2 =
      y.1 + y.2.1 + y.2.2 := by
  simp only [RK4, f, vadd, smul]
  ring

theorem mem_scanl_RK4_sum (mu N : K) :
    ∀ (l : List K) (y0 y : K × K × K),
      y ∈ l.scanl (fun y lam => RK4 mu N 1 0 y lam) y0 →
      y.1 + y.2.1 + y.2.2 = y0.1 + y0.2.1 + y0.2.2 := by
  intro l
  induction l with
  | nil =>
    intro y0 y hy
    rw [List.scanl_nil, List.mem_singleton] at hy
    rw [hy]
  | cons a l ih =>
    intro y0 y hy
    rw [List.scanl_cons, List.singleton_append, List.mem_cons] at hy
    rcases hy with hy | hy
    · rw [hy]
    · rw [ih _ y hy, RK4_sum]

theorem RK4_zero_lambda_S (mu N t : K) (y : K × K × K) :
    (RK4 mu N 1 t y 0).1 = y.1 := by
  simp [RK4, f, vadd, smul]

theorem RK4_zero_lambda_I (mu N t : K) (y : K × K × K) :
    (RK4 mu N 1 t y 0).2.1 =
      y.2.1 * (1 - mu + mu ^ 2 / 2 - mu ^ 3 / 6 + mu ^ 4 / 24) := by
  simp only [RK4, f, vadd, smul]
  ring

theorem taylor_le_one (mu : K) (hmu : 0 < mu)
    (hcond : mu ^ 3 - 4 * mu ^ 2 + 12 * mu ≤ 24) :
    1 - mu + mu ^ 2 / 2 - mu ^ 3 / 6 + mu ^ 4 / 24 ≤ 1 := by
  have h : mu * (mu ^ 3 - 4 * mu ^ 2 + 12 * mu - 24) ≤ 0 :=
    mul_nonpos_of_nonneg_of_nonpos hmu.le (by linarith)
  nlinarith [h]

theorem taylor_nonneg (mu : K) :
    0 ≤ 1 - mu + mu ^ 2 / 2 - mu ^ 3 / 6 + mu ^ 4 / 24 := by
  nlinarith [sq_nonneg (mu ^ 2 - 2 * mu), sq_nonneg (2 * mu - 3)]

theorem scanl_RK4_zero (mu N : K) (hmu : 0 < mu)
    (hcond : mu ^ 3 - 4 * mu ^ 2 + 12 * mu ≤ 24) :
    ∀ (l : List K), (∀ lam ∈ l, lam = 0) → ∀ (y0 : K × K × K), 0 ≤ y0.2.1 →
      (∀ y ∈ l.scanl (fun y lam => RK4 mu N 1 0 y lam) y0, y.1 = y0.1 ∧ 0 ≤ y.2.1) ∧
      List.Chain' (fun a b => b.2.1 ≤ a.2.1)
        (l.scanl (fun y lam => RK4 mu N 1 0 y lam) y0) := by
  intro l
  induction l with
  | nil =>
    intro hz y0 hI
    refine ⟨?_, by rw [List.scanl_nil]; exact List.chain'_singleton y0⟩
    intro y hy
    rw [List.scanl_nil, List.mem_singleton] at hy
    rw [hy]
    exact ⟨rfl, hI⟩
  | cons a l ih =>
    intro hz y0 hI
    have ha : a = 0 := hz a (List.mem_cons_self a l)
    subst ha
    have hS : (RK4 mu N 1 0 y0 0).1 = y0.1 := RK4_zero_lambda_S mu N 0 y0
    have hIeq : (RK4 mu N 1 0 y0 0).2.1 =
        y0.2.1 * (1 - mu + mu ^ 2 / 2 - mu ^ 3 / 6 + mu ^ 4 / 24) :=
      RK4_zero_lambda_I mu N 0 y0
    have hI1 : 0 ≤ (RK4 mu N 1 0 y0 0).2.1 := by
      rw [hIeq]; exact mul_nonneg hI (taylor_nonneg mu)
    have hIle : (RK4 mu N 1 0 y0 0).2.1 ≤ y0.2.1 := by
      rw [hIeq]; exact mul_le_of_le_one_right hI (taylor_le_one mu hmu hcond)
    obtain ⟨hmem, hchain⟩ :=
      ih (fun lam hl => hz lam (List.mem_cons_of_mem _ hl)) (RK4 mu N 1 0 y0 0) hI1
    rw [List.scanl_cons, List.singleton_append]
    constructor
    · intro y hy
      rw [List.mem_cons] at hy
      rcases hy with hy | hy
      · rw [hy]; exact ⟨rfl, hI⟩
      · obtain ⟨e1, e2⟩ := hmem y hy
        exact ⟨by rw [e1, hS], e2⟩
    · obtain ⟨tl, htl⟩ : ∃ tl,
          List.scanl (fun y lam => RK4 mu N 1 0 y lam) (RK4 mu N 1 0 y0 0) l =
            RK4 mu N 1 0 y0 0 :: tl := by
        cases l with
        | nil => exact ⟨[], by rw [List.scanl_nil]⟩
        | cons b t => exact ⟨_, by rw [List.scanl_cons, List.singleton_append]⟩
      rw [htl]
      rw [htl] at hchain
      exact List.chain'_cons.mpr ⟨hIle, hchain⟩

/-! ### Claims -/

/-- C1 (amended): for every window and every initial rate, when the
change-point list is empty, `_change_points_to_lambda_t` does not return a
rate sequence at all: `change_points[0]` raises `IndexError`, so the result
is `none`. -/
theorem change_points_to_lambda_t_empty (exp : K → K) (data_begin data_end : ℤ)
    (lambda_initial : K) :
    change_points_to_lambda_t exp data_begin data_end lambda_initial [] = none := rfl

/-- C1 (counterexample): at the concrete window `0..5` with initial rate
`1/2` and an empty change-point list, the construction yields no rate
sequence (hence not a constant sequence equal to `lambda0`). -/
theorem change_points_to_lambda_t_empty_cex :
    change_points_to_lambda_t Real.exp 0 5 (1 / 2 : ℝ) [] = none := rfl

/-- C2 (amended): for every window and every nonempty change-point list all
of whose dates lie inside the window, `_change_points_to_lambda_t` returns a
rate sequence whose length is the inclusive day count
`(data_end - data_begin) + 1` — which is also the length of the
`pd.date_range(data_begin, data_end)` index and of the `new_cases` series
produced by `generate` (the `data_len` property is the exclusive count
`data_end - data_begin`, one less).  With an empty list or change points
outside the window the stated length property fails (counterexample below). -/
theorem change_points_to_lambda_t_length (exp : K → K) (data_begin data_end : ℤ)
    (lambda_initial : K) (change_points : List (ℤ × K))
    (hne : change_points ≠ [])
    (hin : ∀ cp ∈ change_points, data_begin ≤ cp.1 ∧ cp.1 ≤ data_end) :
    ∃ l, change_points_to_lambda_t exp data_begin data_end lambda_initial
          change_points = some l ∧
      (l.length : ℤ) = data_end - data_begin + 1 ∧
      l.length = (dateRange data_begin data_end).length ∧
      (∀ (sin : K → K) (pi : K) (draw : K → K → K) (mu : K) (iv : Initials K)
          (add_noise : Bool) (nc lt : List K),
        iv.lambda_initial = lambda_initial → iv.change_points = change_points →
        generate exp sin pi draw mu data_begin data_end iv add_noise =
          some (nc, lt) →
        nc.length = l.length) := by
  haveI : IsTotal (ℤ × K) (fun a b => a.1 ≤ b.1) := ⟨fun a b => le_total a.1 b.1⟩
  haveI : IsTrans (ℤ × K) (fun a b => a.1 ≤ b.1) :=
    ⟨fun a b c h1 h2 => le_trans h1 h2⟩
  rcases hs : List.insertionSort (fun a b : ℤ × K => a.1 ≤ b.1) change_points with
    _ | ⟨c0, rest⟩
  · exfalso
    have hlen := List.length_insertionSort
      (fun a b : ℤ × K => a.1 ≤ b.1) change_points
    rw [hs] at hlen
    exact hne (List.length_eq_zero.mp hlen.symm)
  · have hsort : List.Sorted (fun a b : ℤ × K => a.1 ≤ b.1) (c0 :: rest) := by
      have h := List.sorted_insertionSort
        (fun a b : ℤ × K => a.1 ≤ b.1) change_points
      rwa [hs] at h
    have hmem : ∀ cp ∈ (c0 :: rest), data_begin ≤ cp.1 ∧ cp.1 ≤ data_end := by
      intro cp hcp
      refine hin cp ?_
      have hperm := List.perm_insertionSort
        (fun a b : ℤ × K => a.1 ≤ b.1) change_points
      rw [hs] at hperm
      exact hperm.mem_iff.mp hcp
    have hb0 : data_begin ≤ c0.1 := (hmem c0 (List.mem_cons_self c0 rest)).1
    have hbe : data_begin ≤ data_end :=
      le_trans hb0 (hmem c0 (List.mem_cons_self c0 rest)).2
    have hle : ((c0 :: rest).getLast (List.cons_ne_nil c0 rest)).1 ≤ data_end :=
      (hmem _ (List.getLast_mem (List.cons_ne_nil c0 rest))).2
    have heq : change_points_to_lambda_t exp data_begin data_end lambda_initial
        change_points = some
          (helper_lambda_between exp (data_begin, lambda_initial) c0
            ++ ((c0 :: rest).zip rest).flatMap
                (fun p => helper_lambda_between exp p.1 p.2)
            ++ List.replicate
                (data_end - ((c0 :: rest).getLast (List.cons_ne_nil c0 rest)).1
                  + 1).toNat
                ((c0 :: rest).getLast (List.cons_ne_nil c0 rest)).2) := by
      unfold change_points_to_lambda_t
      rw [hs]
    have hmid := middle_segments_length exp (c0 :: rest)
      (List.cons_ne_nil c0 rest) hsort
    rw [List.tail_cons, List.head_cons] at hmid
    have hlenZ : ((helper_lambda_between exp (data_begin, lambda_initial) c0
        ++ ((c0 :: rest).zip rest).flatMap
            (fun p => helper_lambda_between exp p.1 p.2)
        ++ List.replicate
            (data_end - ((c0 :: rest).getLast (List.cons_ne_nil c0 rest)).1
              + 1).toNat
            ((c0 :: rest).getLast (List.cons_ne_nil c0 rest)).2).length : ℤ)
        = data_end - data_begin + 1 := by
      rw [List.length_append, List.length_append, helper_lambda_between_length,
        List.length_replicate]
      dsimp only
      omega
    refine ⟨_, heq, hlenZ, ?_, ?_⟩
    · rw [dateRange_length]
      omega
    · intro sin pi draw mu iv add_noise nc lt hiv1 hiv2 hg
      simp only [generate] at hg
      rw [hiv1, hiv2, heq] at hg
      simp only [Option.map_some'] at hg
      have hpair := Option.some.inj hg
      have hnc := congrArg Prod.fst hpair
      simp only at hnc
      rw [← hnc]
      cases add_noise <;>
        simp only [Bool.false_eq_true, if_false, if_true, random_noise_length,
          delay_cases_length, week_modulation_length, time_steps_length,
          data_len] <;>
        omega

/-- C2 (witness): the amended claim instantiated over `ℚ` at window `0..1`,
initial rate `1`, and the single in-window change point `(0, 1)`. -/
theorem change_points_to_lambda_t_length_witness :
    (([((0 : ℤ), (1 : ℚ))] : List (ℤ × ℚ)) ≠ []) ∧
    (∀ cp ∈ ([((0 : ℤ), (1 : ℚ))] : List (ℤ × ℚ)), (0 : ℤ) ≤ cp.1 ∧ cp.1 ≤ 1) ∧
    (∃ l, change_points_to_lambda_t (fun x => x) 0 1 (1 : ℚ) [(0, 1)] = some l ∧
      (l.length : ℤ) = 1 - 0 + 1 ∧
      l.length = (dateRange 0 1).length ∧
      (∀ (sin : ℚ → ℚ) (pi : ℚ) (draw : ℚ → ℚ → ℚ) (mu : ℚ) (iv : Initials ℚ)
          (add_noise : Bool) (nc lt : List ℚ),
        iv.lambda_initial = 1 → iv.change_points = [(0, 1)] →
        generate (fun x => x) sin pi draw mu 0 1 iv add_noise = some (nc, lt) →
        nc.length = l.length)) :=
  ⟨by simp, by norm_num,
    change_points_to_lambda_t_length (fun x => x) 0 1 1 [(0, 1)]
      (by simp) (by norm_num)⟩

/-- C2 (counterexample): the length property does not hold for every
change-point list: the window `0..2` spans 3 days, but with the single
change point dated `-5` (before the window start) the returned rate
sequence has 13 entries. -/
theorem change_points_to_lambda_t_length_cex :
    Option.map List.length
        (change_points_to_lambda_t Real.exp 0 2 (0 : ℝ) [((-5 : ℤ), (0 : ℝ))])
      = some 13 ∧
    (dateRange 0 2).length = 3 ∧ (13 : ℕ) ≠ 3 := by
  refine ⟨?_, by simp [dateRange_length], by norm_num⟩
  norm_num [change_points_to_lambda_t, List.insertionSort, List.orderedInsert,
    helper_lambda_between_length, List.length_append]
  decide

/-- C3: every state on the trajectory produced by `_generate_SIR` has
`S + I + R` equal to `N = S0 + I0 + R0`: each RK4 step preserves the sum
exactly (in exact arithmetic), for positive population, positive recovery
rate and positive rates. -/
theorem generate_SIR_sum_invariant (mu S0 I0 R0 : K) (lambda_t : List K)
    (time_range : ℕ) (y : K × K × K)
    (hN : 0 < S0 + I0 + R0) (hmu : 0 < mu) (hpos : ∀ lam ∈ lambda_t, 0 < lam)
    (hy : y ∈ generate_SIR mu S0 I0 R0 lambda_t time_range) :
    y.1 + y.2.1 + y.2.2 = S0 + I0 + R0 := by
  have h := mem_scanl_RK4_sum mu (S0 + I0 + R0) (lambda_t.take time_range)
    (S0, I0, R0) y (by simpa [generate_SIR] using hy)
  simpa using h

/-- C3 (witness): the invariant instantiated over `ℚ` at
`mu = 1, (S0, I0, R0) = (1, 1, 0)`, rate sequence `[1]`, one step, at the
initial trajectory point. -/
theorem generate_SIR_sum_invariant_witness :
    (0 : ℚ) < 1 + 1 + 0 ∧ (0 : ℚ) < 1 ∧ (∀ lam ∈ [(1 : ℚ)], 0 < lam) ∧
    ((1 : ℚ), (1 : ℚ), (0 : ℚ)) ∈ generate_SIR (1 : ℚ) 1 1 0 [1] 1 ∧
    ((1 : ℚ), (1 : ℚ), (0 : ℚ)).1 + ((1 : ℚ), (1 : ℚ), (0 : ℚ)).2.1 +
      ((1 : ℚ), (1 : ℚ), (0 : ℚ)).2.2 = 1 + 1 + 0 :=
  ⟨by norm_num, by norm_num, by norm_num,
    by simp [generate_SIR, List.scanl],
    generate_SIR_sum_invariant 1 1 1 0 [1] 1 ((1 : ℚ), (1 : ℚ), (0 : ℚ))
      (by norm_num) (by norm_num) (by norm_num)
      (by simp [generate_SIR, List.scanl])⟩

/-- C4 (amended): with an identically zero rate sequence, non-negative
initial infected count, positive population, and a positive recovery rate
`mu` satisfying `mu^3 - 4*mu^2 + 12*mu ≤ 24` (for instance any `mu ≤ 2`; the
code default is `mu = 0.13`), the `S` component of the `_generate_SIR`
trajectory is constant and the `I` component is non-increasing.  Each step
multiplies `I` by `1 - mu + mu^2/2 - mu^3/6 + mu^4/24`, the degree-4 Taylor
polynomial of `exp(-mu)`, which lies in `[0, 1]` exactly under that cubic
condition — for larger `mu` (≈ 2.785 and above) it exceeds `1` and `I`
grows, so the original unrestricted claim is false. -/
theorem generate_SIR_zero_lambda (mu S0 I0 R0 : K) (lambda_t : List K)
    (time_range : ℕ)
    (hN : 0 < S0 + I0 + R0) (hI0 : 0 ≤ I0) (hmu : 0 < mu)
    (hcond : mu ^ 3 - 4 * mu ^ 2 + 12 * mu ≤ 24)
    (hz : ∀ lam ∈ lambda_t, lam = 0) :
    (∀ y ∈ generate_SIR mu S0 I0 R0 lambda_t time_range, y.1 = S0) ∧
    List.Chain' (fun a b => b.2.1 ≤ a.2.1)
      (generate_SIR mu S0 I0 R0 lambda_t time_range) := by
  have h := scanl_RK4_zero mu (S0 + I0 + R0) hmu hcond (lambda_t.take time_range)
    (fun lam hl => hz lam (List.take_subset _ _ hl)) (S0, I0, R0) hI0
  constructor
  · intro y hy
    exact (h.1 y (by simpa [generate_SIR] using hy)).1
  · simpa [generate_SIR] using h.2

/-- C4 (witness): the amended claim instantiated over `ℚ` at
`mu = 1, (S0, I0, R0) = (1, 1, 0)`, zero rate sequence `[0]`, one step. -/
theorem generate_SIR_zero_lambda_witness :
    (0 : ℚ) < 1 + 1 + 0 ∧ (0 : ℚ) ≤ 1 ∧ (0 : ℚ) < 1 ∧
    ((1 : ℚ) ^ 3 - 4 * 1 ^ 2 + 12 * 1 ≤ 24) ∧ (∀ lam ∈ [(0 : ℚ)], lam = 0) ∧
    ((∀ y ∈ generate_SIR (1 : ℚ) 1 1 0 [0] 1, y.1 = 1) ∧
      List.Chain' (fun a b => b.2.1 ≤ a.2.1) (generate_SIR (1 : ℚ) 1 1 0 [0] 1)) :=
  ⟨by norm_num, by norm_num, by norm_num, by norm_num, by simp,
    generate_SIR_zero_lambda 1 1 1 0 [0] 1
      (by norm_num) (by norm_num) (by norm_num) (by norm_num) (by simp)⟩

/-- C4 (counterexample): at `mu = 3` (which satisfies the claim's hypotheses
`N > 0`, `mu > 0`, zero rates) the infected component of the trajectory from
`(S, I, R) = (0, 1, 0)` increases from `1` to `11/8` after one step, so `I`
is not non-increasing. -/
theorem generate_SIR_I_increases_cex :
    (0 : ℝ) < 0 + 1 + 0 ∧ (0 : ℝ) < 3 ∧ (∀ lam ∈ [(0 : ℝ)], lam = 0) ∧
    (generate_SIR (3 : ℝ) 0 1 0 [0] 1).map (fun y => y.2.1) = [1, 11 / 8] ∧
    ¬ List.Chain' (fun a b : ℝ × ℝ × ℝ => b.2.1 ≤ a.2.1)
        (generate_SIR (3 : ℝ) 0 1 0 [0] 1) := by
  refine ⟨by norm_num, by norm_num, by simp, ?_, ?_⟩
  · norm_num [generate_SIR, RK4, f, vadd, smul, List.scanl]
  · norm_num [generate_SIR, RK4, f, vadd, smul, List.scanl, List.chain'_cons]

/-- C5: `_calc_new_cases_raw` maps `I[0..T]` to a same-length sequence whose
first element is `0`, whose element at `i > 0` is `max 0 (I[i] - I[i-1])`,
and all of whose elements are non-negative. -/
theorem calc_new_cases_raw_spec (I : List K) (i : ℕ)
    (hne : I ≠ []) (hi : i < I.length) :
    (calc_new_cases_raw I).length = I.length ∧
    (calc_new_cases_raw I).getD 0 0 = 0 ∧
    (0 < i → (calc_new_cases_raw I).getD i 0 = max 0 (I.getD i 0 - I.getD (i - 1) 0)) ∧
    (∀ x ∈ calc_new_cases_raw I, 0 ≤ x) := by
  refine ⟨by simp [calc_new_cases_raw], ?_, ?_, ?_⟩
  · rw [calc_new_cases_raw, getD_map_range _ _ _ (by simpa using List.length_pos.mpr hne)]
    simp
  · intro hi0
    rw [calc_new_cases_raw, getD_map_range _ _ _ hi]
    rw [if_neg (Nat.pos_iff_ne_zero.mp hi0)]
    rcases lt_or_le 0 (I.getD i 0 - I.getD (i - 1) 0) with h | h
    · rw [if_pos h, max_eq_right h.le]
    · rw [if_neg (not_lt.mpr h), max_eq_left h]
  · intro x hx
    simp only [calc_new_cases_raw, List.mem_map, List.mem_range] at hx
    obtain ⟨j, -, rfl⟩ := hx
    by_cases h1 : j = 0
    · simp [h1]
    · rw [if_neg h1]
      show (0 : K) ≤ if 0 < I.getD j 0 - I.getD (j - 1) 0
        then I.getD j 0 - I.getD (j - 1) 0 else 0
      split
      · exact le_of_lt (by assumption)
      · exact le_refl 0

/-- C5 (witness): the specification instantiated at `I = [1, 3]`, `i = 1`
over `ℚ`. -/
theorem calc_new_cases_raw_spec_witness :
    (([(1 : ℚ), 3] : List ℚ) ≠ []) ∧ 1 < ([(1 : ℚ), 3] : List ℚ).length ∧
    ((calc_new_cases_raw [(1 : ℚ), 3]).length = ([(1 : ℚ), 3] : List ℚ).length ∧
      (calc_new_cases_raw [(1 : ℚ), 3]).getD 0 0 = 0 ∧
      (0 < 1 → (calc_new_cases_raw [(1 : ℚ), 3]).getD 1 0 =
        max 0 (([(1 : ℚ), 3] : List ℚ).getD 1 0 - ([(1 : ℚ), 3] : List ℚ).getD (1 - 1) 0)) ∧
      (∀ x ∈ calc_new_cases_raw [(1 : ℚ), 3], 0 ≤ x)) :=
  ⟨by simp, by simp, calc_new_cases_raw_spec [1, 3] 1 (by simp) (by simp)⟩

/-- C6: in the table produced by `generate` (noise disabled), the
`new_cases` column is the modulated series shifted forward by `case_delay`
positions — the first `case_delay` entries are zero-filled and the length is
preserved — while the `lambda_t` column is the raw
`_change_points_to_lambda_t` output, not delay-shifted, so the two columns
are deliberately not temporally aligned. -/
theorem generate_columns (exp sin : K → K) (pi : K) (draw : K → K → K)
    (mu : K) (data_begin data_end : ℤ) (iv : Initials K) (nc lt : List K)
    (hg : generate exp sin pi draw mu data_begin data_end iv false =
      some (nc, lt)) :
    change_points_to_lambda_t exp data_begin data_end iv.lambda_initial
        iv.change_points = some lt ∧
    (let M := week_modulation sin pi iv.weekend_factor iv.offset_sunday
        (time_steps data_begin data_end)
        (calc_new_cases_raw
          ((generate_SIR mu iv.S_initial iv.I_initial iv.R_initial lt
              (data_len data_begin data_end).toNat).map (fun y => y.2.1)));
      nc = delay_cases iv.case_delay M ∧
      nc.length = M.length ∧
      (∀ i, i < iv.case_delay → i < nc.length → nc.getD i 0 = 0) ∧
      (∀ i, iv.case_delay ≤ i → i < nc.length →
        nc.getD i 0 = M.getD (i - iv.case_delay) 0)) := by
  rcases hlam : change_points_to_lambda_t exp data_begin data_end
      iv.lambda_initial iv.change_points with _ | lam
  · rw [generate, hlam] at hg
    exact absurd hg (by simp)
  · rw [generate, hlam] at hg
    simp only [Option.map_some', Bool.false_eq_true, if_false] at hg
    rw [Option.some_inj, Prod.mk.injEq] at hg
    obtain ⟨hnc, hlt⟩ := hg
    subst hlt
    subst hnc
    refine ⟨rfl, ?_⟩
    intro M
    refine ⟨rfl, delay_cases_length _ _, ?_, ?_⟩
    · intro i h1 h2
      rw [delay_cases_length] at h2
      exact delay_cases_getD_zero _ M i h1 h2
    · intro i h1 h2
      rw [delay_cases_length] at h2
      exact delay_cases_getD_shift _ M i h1 h2

/-- C6 (witness): the column property instantiated over `ℚ` at the one-day
window `0..0` with the initial values `ivals0` (noise off), where the
pipeline output is `new_cases = [0]` and `lambda_t = [1/2]`. -/
theorem generate_columns_witness :
    (generate (fun x => x) (fun _ => 0) 0 (fun _ _ => 0) (13 / 100 : ℚ) 0 0
        ivals0 false = some ([0], [1 / 2])) ∧
    (change_points_to_lambda_t (fun x => x) 0 0 ivals0.lambda_initial
        ivals0.change_points = some [1 / 2] ∧
      (let M := week_modulation (fun _ => 0) 0 ivals0.weekend_factor
          ivals0.offset_sunday (time_steps 0 0)
          (calc_new_cases_raw
            ((generate_SIR (13 / 100 : ℚ) ivals0.S_initial ivals0.I_initial
                ivals0.R_initial [1 / 2] (data_len 0 0).toNat).map
              (fun y => y.2.1)));
        ([0] : List ℚ) = delay_cases ivals0.case_delay M ∧
        ([0] : List ℚ).length = M.length ∧
        (∀ i, i < ivals0.case_delay → i < ([0] : List ℚ).length →
          ([0] : List ℚ).getD i 0 = 0) ∧
        (∀ i, ivals0.case_delay ≤ i → i < ([0] : List ℚ).length →
          ([0] : List ℚ).getD i 0 = M.getD (i - ivals0.case_delay) 0))) := by
  have h : generate (fun x => x) (fun _ => 0) 0 (fun _ _ => 0) (13 / 100 : ℚ)
      0 0 ivals0 false = some ([0], [1 / 2]) := by
    norm_num [generate, ivals0, change_points_to_lambda_t, List.insertionSort,
      List.orderedInsert, helper_lambda_between, time_steps, data_len,
      generate_SIR, List.scanl, calc_new_cases_raw, week_modulation,
      delay_cases, List.range_succ, List.getD]
  exact ⟨h, generate_columns (fun x => x) (fun _ => 0) 0 (fun _ _ => 0)
    (13 / 100) 0 0 ivals0 [0] [1 / 2] h⟩

/-- C7: `_random_noise` leaves zero entries unchanged and replaces each
strictly positive entry `mu_i` by a draw with parameters `r = 1/alpha` and
`1 - p` where `p = mu_i / (mu_i + r)`. -/
theorem random_noise_spec (draw : K → K → K) (noise_factor : K) (xs : List K)
    (i : ℕ) (halpha : 0 < noise_factor) (hnn : ∀ x ∈ xs, 0 ≤ x)
    (hi : i < xs.length) :
    (xs.getD i 0 = 0 → (random_noise draw noise_factor xs).getD i 0 = xs.getD i 0) ∧
    (0 < xs.getD i 0 → (random_noise draw noise_factor xs).getD i 0 =
      draw (1 / noise_factor)
        (1 - xs.getD i 0 / (xs.getD i 0 + 1 / noise_factor))) := by
  have hx : xs.getD i 0 = xs[i] := List.getD_eq_getElem xs 0 hi
  have hilen : i < (random_noise draw noise_factor xs).length := by
    simpa [random_noise] using hi
  have hout := List.getD_eq_getElem (random_noise draw noise_factor xs) 0 hilen
  constructor
  · intro h0
    rw [hout]
    simp only [random_noise, List.getElem_map]
    rw [← hx, if_pos h0]
  · intro hpos
    rw [hout]
    simp only [random_noise, List.getElem_map]
    rw [← hx, if_neg (ne_of_gt hpos)]
    simp [convert]

/-- C7 (witness): the specification instantiated over `ℚ` at the series
`[0, 2]`, dispersion `1`, index `1`, and a constant sampler. -/
theorem random_noise_spec_witness :
    (0 : ℚ) < 1 ∧ (∀ x ∈ ([(0 : ℚ), 2] : List ℚ), 0 ≤ x) ∧
    1 < ([(0 : ℚ), 2] : List ℚ).length ∧
    ((([(0 : ℚ), 2] : List ℚ).getD 1 0 = 0 →
        (random_noise (fun _ _ => 7) 1 [(0 : ℚ), 2]).getD 1 0 =
          ([(0 : ℚ), 2] : List ℚ).getD 1 0) ∧
      (0 < ([(0 : ℚ), 2] : List ℚ).getD 1 0 →
        (random_noise (fun _ _ => 7) 1 [(0 : ℚ), 2]).getD 1 0 =
          (fun _ _ => (7 : ℚ)) (1 / 1)
            (1 - ([(0 : ℚ), 2] : List ℚ).getD 1 0 /
              (([(0 : ℚ), 2] : List ℚ).getD 1 0 + 1 / 1)))) :=
  ⟨by norm_num, by norm_num, by simp,
    random_noise_spec (fun _ _ => 7) 1 [0, 2] 1 (by norm_num) (by norm_num) (by simp)⟩

/-- C8: `_week_modulation` never increases an entry and never makes it
negative: for a weekend factor in `[0, 1]`, any Sunday offset, and
non-negative raw cases, each output entry satisfies
`0 ≤ out[i] ≤ new_cases_raw[i]`. -/
theorem week_modulation_le (weekend_factor offset_sunday : ℝ)
    (t_n new_cases_raw : List ℝ) (i : ℕ)
    (hf0 : 0 ≤ weekend_factor) (hf1 : weekend_factor ≤ 1)
    (hnn : ∀ x ∈ new_cases_raw, 0 ≤ x)
    (hi : i < t_n.length) (hi2 : i < new_cases_raw.length) :
    0 ≤ (week_modulation Real.sin Real.pi weekend_factor offset_sunday
          t_n new_cases_raw).getD i 0 ∧
    (week_modulation Real.sin Real.pi weekend_factor offset_sunday
          t_n new_cases_raw).getD i 0 ≤ new_cases_raw.getD i 0 := by
  have hout : (week_modulation Real.sin Real.pi weekend_factor offset_sunday
      t_n new_cases_raw).getD i 0 =
      new_cases_raw.getD i 0 *
        (1 - weekend_factor *
          (1 - |Real.sin (Real.pi / 7 * t_n.getD i 0
                  - 1 / 2 * offset_sunday)|)) := by
    simp only [week_modulation]
    rw [getD_map_range _ _ _ hi]
  have hraw : 0 ≤ new_cases_raw.getD i 0 := by
    rw [List.getD_eq_getElem _ _ hi2]
    exact hnn _ (List.getElem_mem hi2)
  have hs0 : 0 ≤ |Real.sin (Real.pi / 7 * t_n.getD i 0 - 1 / 2 * offset_sunday)| :=
    abs_nonneg _
  have hs1 : |Real.sin (Real.pi / 7 * t_n.getD i 0 - 1 / 2 * offset_sunday)| ≤ 1 :=
    abs_le.mpr ⟨Real.neg_one_le_sin _, Real.sin_le_one _⟩
  have hm1 : weekend_factor *
      (1 - |Real.sin (Real.pi / 7 * t_n.getD i 0 - 1 / 2 * offset_sunday)|) ≤ 1 :=
    mul_le_one₀ hf1 (by linarith) (by linarith)
  have hm0 : 0 ≤ weekend_factor *
      (1 - |Real.sin (Real.pi / 7 * t_n.getD i 0 - 1 / 2 * offset_sunday)|) :=
    mul_nonneg hf0 (by linarith)
  constructor
  · rw [hout]
    exact mul_nonneg hraw (by linarith)
  · rw [hout]
    exact mul_le_of_le_one_right hraw (by linarith)

/-- C8 (witness): the bound instantiated at weekend factor `1/2`, offset
`0`, `t_n = [0]`, raw cases `[2]`, index `0`. -/
theorem week_modulation_le_witness :
    (0 : ℝ) ≤ 1 / 2 ∧ (1 / 2 : ℝ) ≤ 1 ∧ (∀ x ∈ ([(2 : ℝ)] : List ℝ), 0 ≤ x) ∧
    0 < ([(0 : ℝ)] : List ℝ).length ∧ 0 < ([(2 : ℝ)] : List ℝ).length ∧
    (0 ≤ (week_modulation Real.sin Real.pi (1 / 2) 0 [(0 : ℝ)] [(2 : ℝ)]).getD 0 0 ∧
      (week_modulation Real.sin Real.pi (1 / 2) 0 [(0 : ℝ)] [(2 : ℝ)]).getD 0 0 ≤
        ([(2 : ℝ)] : List ℝ).getD 0 0) :=
  ⟨by norm_num, by norm_num, by norm_num, by simp, by simp,
    week_modulation_le (1 / 2) 0 [0] [2] 0
      (by norm_num) (by norm_num) (by norm_num) (by simp) (by simp)⟩

/-- C9 (amended): `__init__` performs no validation of the window: with a
seed supplied, construction succeeds for every pair of dates, including
`data_end` strictly before `data_begin`; the invalid window is simply stored
on the object. -/
theorem init_accepts_inverted_window (data_begin data_end : ℤ) (mu : K)
    (noise : Bool) (s : ℤ) (iv : Initials K) (h : data_end < data_begin) :
    init data_begin data_end mu noise (some s) iv =
      Except.ok { seed := s, add_noise := noise, data_begin := data_begin,
                  data_end := data_end, mu := mu, initials := iv } := rfl

/-- C9 (witness): the amended claim instantiated at the inverted window
`7..3` over `ℚ`. -/
theorem init_accepts_inverted_window_witness :
    (3 : ℤ) < 7 ∧
    init 7 3 (1 : ℚ) true (some 5) ivals0 =
      Except.ok { seed := 5, add_noise := true, data_begin := 7, data_end := 3,
                  mu := 1, initials := ivals0 } :=
  ⟨by decide, init_accepts_inverted_window 7 3 1 true 5 ivals0 (by decide)⟩

/-- C9 (counterexample): with end date `3` strictly before start date `5`
and a seed supplied, construction succeeds (`Except.ok`) instead of
rejecting the window with a validation failure. -/
theorem init_inverted_window_cex :
    (3 : ℤ) < 5 ∧
    init 5 3 (13 / 100 : ℚ) false (some 42) ivals0 =
      Except.ok { seed := 42, add_noise := false, data_begin := 5, data_end := 3,
                  mu := 13 / 100, initials := ivals0 } :=
  ⟨by decide, rfl⟩

/-- C10: constructing without a seed does not succeed: the source evaluates
`np.randint(1000000, 9999999)`, but numpy has no attribute `randint`
(`np.random.randint` was intended), so `__init__` raises `AttributeError`
before any seed is recorded. -/
theorem init_no_seed_fails (data_begin data_end : ℤ) (mu : K) (noise : Bool)
    (iv : Initials K) :
    init data_begin data_end mu noise none iv =
      Except.error "AttributeError: module numpy has no attribute randint" := rfl

end DummyData
